import Mathlib

/-!
Shallow embedding of the topic-scoring and adaptive-learning core of the
videoAutomation repository (src/research/score.py and src/analytics/learn.py).

Modelling conventions:
* Python floats are modelled as exact rationals (`ℚ`).
* Timestamps (`datetime` values) are modelled as rational numbers of hours,
  so that `datetime.now() - created_at` in hours is plain subtraction.
* Python `dict` documents are modelled as association lists (insertion order
  preserved, as in CPython) or as structures when the key set is fixed.
* Fallible code paths are modelled with `Except PyErr`; a raised Python
  exception is an `Except.error`.
* `metrics.get(key, default)` on a loosely-typed dict is modelled by `Option`
  fields with `Option.getD`.
-/

namespace VideoAutomation

/-- Python exceptions that the embedded code can raise. -/
inductive PyErr where
  | indexError
  | typeError
  | zeroDivisionError
  deriving DecidableEq, Repr

/-- The loosely-typed per-video performance dict stored inside a usage record
(keys read via `perf.get('avg_view_duration_sec', 0)`,
`perf.get('total_duration_sec', 1)`, `perf.get('views', 0)`). -/
structure PerfData where
  avg_view_duration_sec : Option ℚ
  total_duration_sec : Option ℚ
  views : Option ℚ
  deriving DecidableEq, Repr

/-- One entry of the per-channel usage history written by `mark_topic_used`
(`{'topic_id': ..., 'keywords': ..., 'used_at': ..., 'performance': ...}`). -/
structure UsageRecord where
  topic_id : String
  keywords : List String
  used_at : ℚ
  performance : Option PerfData
  deriving DecidableEq, Repr

/-- A topic candidate (`TopicIdea` in models/schemas.py); only the fields the
scoring core reads are kept, plus the mutable `score`. -/
structure TopicIdea where
  id : String
  title : String
  angle : String
  keywords : List String
  score : ℚ
  created_at : ℚ
  deriving DecidableEq, Repr

/-- The scoring-weights dict; `load_weights` merges the file contents over the
defaults, so exactly these five keys are always present. -/
structure Weights where
  recency_weight : ℚ
  cross_source_weight : ℚ
  novelty_weight : ℚ
  performance_weight : ℚ
  keyword_frequency_weight : ℚ
  deriving DecidableEq, Repr

/-- Sum of the five weight values (`sum(weights.values())`). -/
def wsum (w : Weights) : ℚ :=
  w.recency_weight + w.cross_source_weight + w.novelty_weight +
    w.performance_weight + w.keyword_frequency_weight

/-- The `default_weights` dict in `TopicScorer.load_weights`. -/
def default_weights : Weights :=
  { recency_weight := 3/10
    cross_source_weight := 1/5
    novelty_weight := 1/4
    performance_weight := 1/4
    keyword_frequency_weight := 1/10 }

/-- In-memory state of a `TopicScorer`: its weights dict and the
`used_topics` document (channel → list of usage records, insertion-ordered). -/
structure TopicScorerState where
  weights : Weights
  used_topics : List (String × List UsageRecord)
  deriving DecidableEq, Repr

/-- Embeds `self.used_topics.get(channel, [])`. -/
def histLookup : List (String × List UsageRecord) → String → List UsageRecord
  | [], _ => []
  | (c, h) :: rest, ch => if c = ch then h else histLookup rest ch

/-- Python dict assignment `d[k] = v`: replace in place if the key exists,
otherwise append at the end (CPython preserves insertion order). -/
def setAssoc {α : Type} : List (String × α) → String → α → List (String × α)
  | [], k, v => [(k, v)]
  | (k', v') :: rest, k, v =>
      if k' = k then (k, v) :: rest else (k', v') :: setAssoc rest k v

/-- Python slice `l[-n:]` (the last `n` elements, all of `l` when shorter). -/
def lastN {α : Type} (n : ℕ) (l : List α) : List α := l.drop (l.length - n)

/-- Embeds `set(keywords)`. -/
def kwSet (l : List String) : Finset String := l.toFinset

/-- Python substring test `needle in hay` on strings. -/
def pyInStr (needle hay : String) : Bool :=
  decide (needle.toList <:+: hay.toList)

/-! ### TopicScorer sub-scores -/

/-- Embeds `_score_recency`: step function of the candidate's age in hours. -/
def score_recency (now : ℚ) (idea : TopicIdea) : ℚ :=
  let age_hours := now - idea.created_at
  if age_hours ≤ 24 then 1
  else if age_hours ≤ 72 then 4/5
  else if age_hours ≤ 120 then 1/2
  else 1/5

/-- Embeds `_score_cross_source_overlap`: count other candidates sharing ≥ 2 keywords
and map the count through fixed thresholds. -/
def score_cross_source (idea : TopicIdea) (allIdeas : List TopicIdea) : ℚ :=
  let kws := kwSet idea.keywords
  let similar_count := allIdeas.countP (fun o =>
    decide (o.id ≠ idea.id) && decide (2 ≤ (kws ∩ kwSet o.keywords).card))
  if 3 ≤ similar_count then 1
  else if 2 ≤ similar_count then 4/5
  else if 1 ≤ similar_count then 3/5
  else 3/10

/-- The short-circuiting loop of `_score_novelty` over the recent records. -/
def noveltyGo (kws : Finset String) : List UsageRecord → ℚ
  | [] => 1
  | r :: rest =>
      let overlap := (kws ∩ kwSet r.keywords).card
      if 3 ≤ overlap then 1/5
      else if 2 ≤ overlap then 1/2
      else noveltyGo kws rest

/-- Embeds `_score_novelty`: compare against the channel records used in the last
14 days (= 336 hours). -/
def score_novelty (now : ℚ) (idea : TopicIdea) (hist : List UsageRecord) : ℚ :=
  let recent_cutoff := now - 14 * 24
  let recent_topics := hist.filter (fun r => decide (recent_cutoff < r.used_at))
  noveltyGo (kwSet idea.keywords) recent_topics

/-- The key set of a usage-record dict, in insertion order: `mark_topic_used`
always writes exactly these four keys. -/
def recordDictKeys : List String := ["topic_id", "keywords", "used_at", "performance"]

/-- The loop body of `_score_performance_potential` as actually written: the
source indexes `channel_history[-50]` (a single record dict, not a slice), so
the `for topic in ...` loop iterates over that dict's KEYS.  For each key
string the test `'performance' in topic` is a substring test; when it succeeds
(at the key `"performance"`), `topic['keywords']` indexes a string with a
string and raises `TypeError`. -/
def perfKeyLoop : List String → Except PyErr ℚ
  | [] => .ok (1/2)
  | k :: rest =>
      if pyInStr "performance" k then .error .typeError
      else perfKeyLoop rest

/-- Embeds `_score_performance_potential` as written in the source.  Empty history
returns the neutral 0.5.  Otherwise `channel_history[-50]` raises `IndexError`
when the history is shorter than 50; with at least 50 records it yields the
single record 50 places from the end, whose dict keys are then iterated
(see `perfKeyLoop`).  The candidate's keywords are never actually consulted
on any reachable path. -/
def score_performance_potential (kws : Finset String) (hist : List UsageRecord) :
    Except PyErr ℚ :=
  if hist.isEmpty then .ok (1/2)
  else if hist.length < 50 then .error .indexError
  else
    match perfKeyLoop recordDictKeys with
    | .error e => .error e
    | .ok _ => .ok (1/2)

/-- Embeds `_score_keyword_frequency`: frequency share of each keyword within the
whole batch, mapped through the sweet-spot bands, averaged over the
candidate's own keywords. -/
def score_keyword_frequency (idea : TopicIdea) (allIdeas : List TopicIdea) : ℚ :=
  let all_keywords := (allIdeas.map (fun o => o.keywords)).flatten
  let total_keywords := all_keywords.length
  if total_keywords = 0 then 1/2
  else
    let freq_scores := idea.keywords.map (fun k =>
      let frequency : ℚ := (all_keywords.count k : ℚ) / (total_keywords : ℚ)
      if 1/50 ≤ frequency ∧ frequency ≤ 2/25 then (1 : ℚ)
      else if 1/100 ≤ frequency ∧ frequency ≤ 3/20 then 7/10
      else 2/5)
    if freq_scores.isEmpty then 1/2
    else freq_scores.sum / (freq_scores.length : ℚ)

/-- Embeds `_calculate_composite_score`: the five sub-scores weighted and clamped
from above with `min(1.0, ...)`.  The performance sub-score can raise, which
propagates. -/
def calculate_composite_score (now : ℚ) (st : TopicScorerState)
    (idea : TopicIdea) (allIdeas : List TopicIdea) (channel : String) :
    Except PyErr ℚ :=
  let hist := histLookup st.used_topics channel
  match score_performance_potential (kwSet idea.keywords) hist with
  | .error e => .error e
  | .ok perf =>
      .ok (min 1
        (score_recency now idea * st.weights.recency_weight +
         score_cross_source idea allIdeas * st.weights.cross_source_weight +
         score_novelty now idea hist * st.weights.novelty_weight +
         perf * st.weights.performance_weight +
         score_keyword_frequency idea allIdeas * st.weights.keyword_frequency_weight))

/-! ### Deduplication -/

/-- The overlap fraction `len(A & B) / max(len(A), len(B))`; Python raises
`ZeroDivisionError` when both sets are empty. -/
def overlapFrac (a b : Finset String) : Except PyErr ℚ :=
  if max a.card b.card = 0 then .error .zeroDivisionError
  else .ok (((a ∩ b).card : ℚ) / (max a.card b.card : ℚ))

/-- The inner loop of `_deduplicate_topics`: scan the already-kept keyword
sets in order, break as soon as one overlaps by more than 0.7. -/
def isDuplicate (kws : Finset String) : List (Finset String) → Except PyErr Bool
  | [] => .ok false
  | u :: rest =>
      match overlapFrac kws u with
      | .error e => .error e
      | .ok r => if 7/10 < r then .ok true else isDuplicate kws rest

/-- The outer loop of `_deduplicate_topics`, threading the list of kept
keyword sets. -/
def dedupGo : List TopicIdea → List (Finset String) → Except PyErr (List TopicIdea)
  | [], _ => .ok []
  | idea :: rest, used =>
      match isDuplicate (kwSet idea.keywords) used with
      | .error e => .error e
      | .ok true => dedupGo rest used
      | .ok false =>
          match dedupGo rest (used ++ [kwSet idea.keywords]) with
          | .error e => .error e
          | .ok tail => .ok (idea :: tail)

/-- Embeds `_deduplicate_topics`. -/
def deduplicate_topics (ideas : List TopicIdea) : Except PyErr (List TopicIdea) :=
  dedupGo ideas []

/-! ### score_and_rank and mark_topic_used -/

/-- The `for idea in ideas: idea.score = self._calculate_composite_score(...)`
loop; an exception from any candidate propagates. -/
def assignScores (now : ℚ) (st : TopicScorerState) (allIdeas : List TopicIdea)
    (channel : String) : List TopicIdea → Except PyErr (List TopicIdea)
  | [] => .ok []
  | i :: rest =>
      match calculate_composite_score now st i allIdeas channel with
      | .error e => .error e
      | .ok s =>
          match assignScores now st allIdeas channel rest with
          | .error e => .error e
          | .ok l => .ok ({ i with score := s } :: l)

/-- Embeds `score_and_rank`: score every candidate, sort descending by score
(CPython's sort is stable), deduplicate. -/
def score_and_rank (st : TopicScorerState) (now : ℚ) (ideas : List TopicIdea)
    (channel : String) : Except PyErr (List TopicIdea) :=
  if ideas.isEmpty then .ok ideas
  else
    match assignScores now st ideas channel ideas with
    | .error e => .error e
    | .ok scored =>
        let ranked := scored.mergeSort (fun a b => decide (b.score ≤ a.score))
        deduplicate_topics ranked

/-- Embeds `mark_topic_used`: append a usage record to the channel's history and
keep only the last 100 entries (`[-100:]`).  `save_history` only performs
file I/O (failures are caught and logged), so the in-memory state is exactly
this. -/
def mark_topic_used (st : TopicScorerState) (topic_id : String)
    (keywords : List String) (channel : String) (perf : Option PerfData)
    (now : ℚ) : TopicScorerState :=
  let hist := histLookup st.used_topics channel
  let topic_record : UsageRecord :=
    { topic_id := topic_id, keywords := keywords, used_at := now, performance := perf }
  { st with used_topics := setAssoc st.used_topics channel (lastN 100 (hist ++ [topic_record])) }

/-- Embeds `update_weights_from_performance` (TopicScorer's own learning step):
three capped multiplicative nudges, no renormalization. -/
def update_weights_from_performance (perf : PerfData) (w : Weights) : Weights :=
  let w1 :=
    if 15 < perf.avg_view_duration_sec.getD 0 then
      { w with novelty_weight := min (2/5) (w.novelty_weight * (21/20)) }
    else w
  let w2 :=
    if 5000 < perf.views.getD 0 then
      { w1 with cross_source_weight := min (3/10) (w1.cross_source_weight * (103/100)) }
    else w1
  if perf.views.getD 0 < 500 then
    { w2 with recency_weight := max (1/10) (w2.recency_weight * (49/50)) }
  else w2

/-! ### LearningEngine data model -/

/-- The metrics dict handed to the learning engine (only the keys the engine
reads; `metrics.get(k, default)` is `Option.getD`).  A missing-metrics result
(`calculate_performance_metrics` returning `{}`) is modelled as `Option.none`
at the call site of `analyze_performance_and_learn`. -/
structure Metrics where
  views : Option ℚ
  engagement_rate : Option ℚ
  retention_rate : Option ℚ
  performance_category : Option String
  deriving DecidableEq, Repr

/-- One entry of `learning_data["keyword_performance"]`. -/
structure KeywordPerf where
  total_videos : ℕ
  total_performance : ℚ
  avg_performance : ℚ
  best_performance : ℚ
  recent_trend : List ℚ
  deriving DecidableEq, Repr

/-- The zero-initialized keyword entry created on first sight of a keyword. -/
def defaultKP : KeywordPerf :=
  { total_videos := 0, total_performance := 0, avg_performance := 0,
    best_performance := 0, recent_trend := [] }

/-- One entry of `learning_data["successful_hooks"]` (the `timestamp` field is
write-only diagnostics and is omitted). -/
structure HookData where
  text : String
  performance : ℚ
  length_words : ℕ
  has_question : Bool
  has_numbers : Bool
  starts_with_action : Bool
  views : ℚ
  engagement_rate : ℚ
  deriving DecidableEq, Repr

/-- One entry of a channel's `successful_structures`. -/
structure StructurePattern where
  sentence_count : ℕ
  avg_sentence_length : ℚ
  has_call_to_action : Bool
  performance : ℚ
  deriving DecidableEq, Repr

/-- Embeds `learning_data["content_insights"][channel]` (`topic_preferences` and
`timing_insights` are initialized empty and never written, so they are
omitted). -/
structure ChannelInsights where
  optimal_length_word_count : ℕ
  optimal_length_performance : ℚ
  successful_structures : List StructurePattern
  deriving DecidableEq, Repr

/-- The insights entry created on first sight of a channel. -/
def defaultInsights : ChannelInsights :=
  { optimal_length_word_count := 0, optimal_length_performance := 0,
    successful_structures := [] }

/-- The learning-state document (`topic_patterns` is initialized empty and
never read or written, so it is omitted). -/
structure LearningData where
  keyword_performance : List (String × KeywordPerf)
  successful_hooks : List HookData
  content_insights : List (String × ChannelInsights)
  last_updated : Option ℚ
  deriving DecidableEq, Repr

/-- Generic association-list lookup (Python `d.get(k)`). -/
def assocFind {α : Type} : List (String × α) → String → Option α
  | [], _ => none
  | (k', v') :: rest, k => if k' = k then some v' else assocFind rest k

/-- In-memory and on-disk state of a `LearningEngine`: the learning document
and the scorer's weights dict, plus the last persisted copy of each (the
`save_*` calls write the in-memory copy to disk; a `none` disk copy means the
file has not been written during the modelled run). -/
structure EngineState where
  learning : LearningData
  weights : Weights
  disk_learning : Option LearningData
  disk_weights : Option Weights
  deriving DecidableEq, Repr

/-! ### LearningEngine operations -/

/-- Embeds `_calculate_performance_score`: the canonical [0,1]-intended fitness
signal `0.5*min(1, views/10000) + 0.3*min(1, engagement_rate/5.0) +
0.2*(retention_rate/100)`. -/
def calculate_performance_score (m : Metrics) : ℚ :=
  let views := m.views.getD 0
  let engagement_rate := m.engagement_rate.getD 0
  let retention_rate := m.retention_rate.getD 0
  (min 1 (views / 10000)) * (1/2) +
    (min 1 (engagement_rate / 5)) * (3/10) +
    (retention_rate / 100) * (1/5)

/-- The per-keyword update inside `_update_keyword_performance`. -/
def updateKP (performance_score : ℚ) (kp : KeywordPerf) : KeywordPerf :=
  let tv := kp.total_videos + 1
  let tp := kp.total_performance + performance_score
  { total_videos := tv
    total_performance := tp
    avg_performance := tp / (tv : ℚ)
    best_performance := max kp.best_performance performance_score
    recent_trend := lastN 10 (kp.recent_trend ++ [performance_score]) }

/-- Embeds `_update_keyword_performance`: fold the per-keyword update over the
topic's keywords (creating zero entries on first sight). -/
def update_keyword_performance (keywords : List String) (m : Metrics)
    (ld : LearningData) : LearningData :=
  let performance_score := calculate_performance_score m
  let kp :=
    keywords.foldl
      (fun acc k =>
        setAssoc acc k (updateKP performance_score ((assocFind acc k).getD defaultKP)))
      ld.keyword_performance
  { ld with keyword_performance := kp }

/-- Helper for `pySplit`: walk the characters accumulating the current word
(reversed); whitespace closes the current word, empty pieces are dropped. -/
def splitWsAux : List Char → List Char → List String
  | [], acc => if acc.isEmpty then [] else [String.mk acc.reverse]
  | c :: cs, acc =>
      if c.isWhitespace then
        if acc.isEmpty then splitWsAux cs []
        else String.mk acc.reverse :: splitWsAux cs []
      else splitWsAux cs (c :: acc)

/-- Python `str.split()` with no argument: split on whitespace runs and drop
empty pieces (so `"".split()` is `[]`). -/
def pySplit (s : String) : List String :=
  splitWsAux s.toList []

/-- The fixed action-verb set tested against the hook's first word. -/
def actionVerbs : List String := ["discover", "learn", "watch", "see", "find", "get"]

/-- Embeds `_analyze_hook_performance`: derive the hook's structural features and
keep the global top-50 hooks by performance (stable sort then truncate).
`hook.split()[0]` raises `IndexError` when the hook has no words. -/
def analyze_hook_performance (hook : String) (m : Metrics) (ld : LearningData) :
    Except PyErr LearningData :=
  let performance_score := calculate_performance_score m
  let ws := pySplit hook
  match ws with
  | [] => .error .indexError
  | w0 :: _ =>
      let hook_data : HookData :=
        { text := hook
          performance := performance_score
          length_words := ws.length
          has_question := hook.toList.contains '?'
          has_numbers := hook.toList.any Char.isDigit
          starts_with_action := actionVerbs.contains w0.toLower
          views := m.views.getD 0
          engagement_rate := m.engagement_rate.getD 0 }
      .ok { ld with successful_hooks :=
        ((ld.successful_hooks ++ [hook_data]).mergeSort
          (fun a b => decide (b.performance ≤ a.performance))).take 50 }

/-- The call-to-action keyword set of `_update_content_insights`. -/
def ctaWords : List String := ["comment", "like", "subscribe", "share", "follow"]

/-- Embeds `_update_content_insights`: track the best-performing script length
(replace only when strictly better) and the channel's top-20 structural
fingerprints. -/
def update_content_insights (script : String) (m : Metrics) (channel : String)
    (ld : LearningData) : LearningData :=
  let insights := (assocFind ld.content_insights channel).getD defaultInsights
  let performance_score := calculate_performance_score m
  let word_count := (pySplit script).length
  let insights1 :=
    if insights.optimal_length_performance < performance_score then
      { insights with optimal_length_word_count := word_count
                      optimal_length_performance := performance_score }
    else insights
  let sentences := script.splitOn "."
  let structure_pattern : StructurePattern :=
    { sentence_count := sentences.length
      avg_sentence_length :=
        if sentences.isEmpty then 0
        else ((sentences.map (fun s => (pySplit s).length)).sum : ℚ) / (sentences.length : ℚ)
      has_call_to_action := ctaWords.any (fun c => pyInStr c script.toLower)
      performance := performance_score }
  let insights2 :=
    { insights1 with successful_structures :=
        ((insights1.successful_structures ++ [structure_pattern]).mergeSort
          (fun a b => decide (b.performance ≤ a.performance))).take 20 }
  { ld with content_insights := setAssoc ld.content_insights channel insights2 }

/-- Embeds `_update_topic_weights` up to (but not including) the renormalizing
division: the conditional multiplicative nudges. -/
def adjustWeights (m : Metrics) (w : Weights) : Weights :=
  let performance_category := m.performance_category.getD "average"
  let engagement_rate := m.engagement_rate.getD 0
  let retention_rate := m.retention_rate.getD 0
  if performance_category = "viral" ∨ performance_category = "high" then
    { recency_weight := w.recency_weight * (51/50)
      cross_source_weight := w.cross_source_weight * (51/50)
      novelty_weight := w.novelty_weight * (51/50)
      performance_weight := w.performance_weight * (51/50)
      keyword_frequency_weight := w.keyword_frequency_weight * (51/50) }
  else if performance_category = "low" then
    let wa :=
      if retention_rate < 30 then
        { w with novelty_weight := w.novelty_weight * (21/20)
                 performance_weight := w.performance_weight * (19/20) }
      else w
    if engagement_rate < 1 then
      { wa with cross_source_weight := wa.cross_source_weight * (103/100)
                recency_weight := wa.recency_weight * (49/50) }
    else wa
  else w

/-- Embeds `_update_topic_weights`: apply the conditional multiplications, then
divide every weight by the new total.  When the total is zero Python raises
`ZeroDivisionError` at the first division, leaving the multiplied-but-not-yet
-divided weights in place; the pair returns that partial state together with
the raised error. -/
def update_topic_weights (m : Metrics) (w : Weights) : Weights × Option PyErr :=
  let w1 := adjustWeights m w
  let total_weight := wsum w1
  if total_weight = 0 then (w1, some .zeroDivisionError)
  else
    ({ recency_weight := w1.recency_weight / total_weight
       cross_source_weight := w1.cross_source_weight / total_weight
       novelty_weight := w1.novelty_weight / total_weight
       performance_weight := w1.performance_weight / total_weight
       keyword_frequency_weight := w1.keyword_frequency_weight / total_weight }, none)

/-- Embeds `analyze_performance_and_learn`: the whole body sits inside one
`try/except` that logs and swallows any exception, so the function always
returns a state; an exception raised by an inner step leaves exactly the
mutations already performed in memory and skips everything after it.
`metrics = none` models `calculate_performance_metrics` returning `{}`
(the early `if not metrics: return`). -/
def analyze_performance_and_learn (st : EngineState) (topic_keywords : List String)
    (hook script channel : String) (metrics : Option Metrics) (now : ℚ) :
    EngineState :=
  match metrics with
  | none => st
  | some m =>
      let ld1 := update_keyword_performance topic_keywords m st.learning
      match analyze_hook_performance hook m ld1 with
      | .error _ => { st with learning := ld1 }
      | .ok ld2 =>
          let ld3 := update_content_insights script m channel ld2
          match update_topic_weights m st.weights with
          | (w1, some _) => { st with learning := ld3, weights := w1 }
          | (w1, none) =>
              let ld4 := { ld3 with last_updated := some now }
              { learning := ld4, weights := w1,
                disk_learning := some ld4, disk_weights := some w1 }

/-! ### Spec-side deduplication (for the refinement claim) -/

/-- The spec's overlap ratio `|A ∩ B| / max(|A|, |B|)`, as a total rational
(the spec does not contemplate two empty keyword sets). -/
def overlapRatioSpec (a b : Finset String) : ℚ :=
  ((a ∩ b).card : ℚ) / (max a.card b.card : ℚ)

/-- Deduplication as the spec words it: walk the list and keep a candidate
exactly when its overlap ratio with EVERY already-kept candidate's keyword
set is ≤ 0.7. -/
def dedupSpecGo : List TopicIdea → List (Finset String) → List TopicIdea
  | [], _ => []
  | i :: rest, kept =>
      if kept.all (fun u => decide (overlapRatioSpec (kwSet i.keywords) u ≤ 7/10)) then
        i :: dedupSpecGo rest (kept ++ [kwSet i.keywords])
      else dedupSpecGo rest kept

/-- Spec-side deduplication of a whole (already score-sorted) list. -/
def dedupSpec (l : List TopicIdea) : List TopicIdea := dedupSpecGo l []

/-- Number of candidates in a batch whose keyword set is empty. -/
def numEmptyKw (l : List TopicIdea) : ℕ :=
  l.countP (fun i => i.keywords.isEmpty)

/-- All five weights strictly positive (the spec's data model:
"named factor → positive float weight"). -/
def wpos (w : Weights) : Prop :=
  0 < w.recency_weight ∧ 0 < w.cross_source_weight ∧ 0 < w.novelty_weight ∧
    0 < w.performance_weight ∧ 0 < w.keyword_frequency_weight

/-- All five weights nonnegative. -/
def wnonneg (w : Weights) : Prop :=
  0 ≤ w.recency_weight ∧ 0 ≤ w.cross_source_weight ∧ 0 ≤ w.novelty_weight ∧
    0 ≤ w.performance_weight ∧ 0 ≤ w.keyword_frequency_weight

/-- Iterate `mark_topic_used` over a list of calls for one channel
(argument tuples: topic id, keywords, performance data, timestamp). -/
def runMarks (st : TopicScorerState) (channel : String) :
    List (String × List String × Option PerfData × ℚ) → TopicScorerState
  | [] => st
  | (tid, kws, perf, t) :: rest =>
      runMarks (mark_topic_used st tid kws channel perf t) channel rest

/-- The usage record a `mark_topic_used` call appends. -/
def callRecord : String × List String × Option PerfData × ℚ → UsageRecord
  | (tid, kws, perf, t) => { topic_id := tid, keywords := kws, used_at := t, performance := perf }

/-! ### Concrete sample inputs used by the closed theorems -/

/-- A plain usage record with no performance data. -/
def sampleRecord : UsageRecord :=
  { topic_id := "t0", keywords := ["a", "b"], used_at := 0, performance := none }

/-- A candidate with an empty keyword set. -/
def ideaEmpty1 : TopicIdea :=
  { id := "e1", title := "", angle := "", keywords := [], score := 0, created_at := 0 }

/-- A second candidate with an empty keyword set. -/
def ideaEmpty2 : TopicIdea :=
  { id := "e2", title := "", angle := "", keywords := [], score := 0, created_at := 0 }

/-- The spec scenario candidate with keywords {ai, robot, future}, scored 0.9. -/
def ideaAI1 : TopicIdea :=
  { id := "a1", title := "", angle := "", keywords := ["ai", "robot", "future"],
    score := 9/10, created_at := 0 }

/-- The spec scenario candidate with keywords {ai, robot, tech}, scored 0.8. -/
def ideaAI2 : TopicIdea :=
  { id := "a2", title := "", angle := "", keywords := ["ai", "robot", "tech"],
    score := 4/5, created_at := 0 }

/-- The spec scenario candidate with keywords {ai, robot, future, x}, scored 0.8. -/
def ideaAI3 : TopicIdea :=
  { id := "a3", title := "", angle := "", keywords := ["ai", "robot", "future", "x"],
    score := 4/5, created_at := 0 }

/-- A freshly constructed scorer: default weights, no usage history. -/
def freshScorer : TopicScorerState :=
  { weights := default_weights, used_topics := [] }

/-- The empty learning document created when no file exists. -/
def emptyLearning : LearningData :=
  { keyword_performance := [], successful_hooks := [], content_insights := [],
    last_updated := none }

/-- A freshly constructed learning engine over a fresh scorer. -/
def freshEngine : EngineState :=
  { learning := emptyLearning, weights := default_weights,
    disk_learning := none, disk_weights := none }

/-- The spec's worked example metrics: views 12000, engagement 3.0, retention 80. -/
def sampleMetrics : Metrics :=
  { views := some 12000, engagement_rate := some 3, retention_rate := some 80,
    performance_category := none }

/-- Metrics with an out-of-range retention rate. -/
def overRetentionMetrics : Metrics :=
  { views := some 0, engagement_rate := some 0, retention_rate := some 600,
    performance_category := none }

/-- Performance data with good retention and good views. -/
def samplePerf : PerfData :=
  { avg_view_duration_sec := some 20, total_duration_sec := some 30, views := some 6000 }

/-- A normalized weight configuration concentrating all mass on recency. -/
def wRecOnly : Weights :=
  { recency_weight := 1, cross_source_weight := 0, novelty_weight := 0,
    performance_weight := 0, keyword_frequency_weight := 0 }

/-- A scorer equipped with the recency-only weights and no history. -/
def recOnlyScorer : TopicScorerState :=
  { weights := wRecOnly, used_topics := [] }

/-- A list of 150 identical `mark_topic_used` call tuples for one channel. -/
def sampleCalls : List (String × List String × Option PerfData × ℚ) :=
  List.replicate 150 ("t0", ["k"], none, 0)

/-! ### Helper lemmas: deduplication -/

lemma kwSet_eq_empty_iff (l : List String) : kwSet l = ∅ ↔ l = [] := by
  simp [kwSet]

lemma overlapFrac_ok (a b : Finset String) (h : a ≠ ∅ ∨ b ≠ ∅) :
    overlapFrac a b = .ok (overlapRatioSpec a b) := by
  have hmax : max a.card b.card ≠ 0 := by
    rcases h with h | h
    · have : 0 < a.card := Finset.card_pos.mpr (Finset.nonempty_iff_ne_empty.mpr h)
      omega
    · have : 0 < b.card := Finset.card_pos.mpr (Finset.nonempty_iff_ne_empty.mpr h)
      omega
  simp [overlapFrac, overlapRatioSpec, hmax]

lemma overlapFrac_empty_empty :
    overlapFrac ∅ ∅ = .error .zeroDivisionError := rfl

lemma overlapRatioSpec_empty_left (u : Finset String) : overlapRatioSpec ∅ u = 0 := by
  simp [overlapRatioSpec]

lemma isDuplicate_of_ne_empty (kws : Finset String) (h : kws ≠ ∅)
    (used : List (Finset String)) :
    isDuplicate kws used =
      .ok (!used.all (fun u => decide (overlapRatioSpec kws u ≤ 7/10))) := by
  induction used with
  | nil => simp [isDuplicate]
  | cons u rest ih =>
      simp only [isDuplicate]
      rw [overlapFrac_ok kws u (Or.inl h)]
      by_cases hr : 7/10 < overlapRatioSpec kws u
      · simp [hr, not_le.mpr hr]
      · simp [hr, not_lt.mp hr, ih]

lemma isDuplicate_empty_of_all_ne (used : List (Finset String))
    (hu : ∀ u ∈ used, u ≠ ∅) :
    isDuplicate ∅ used = .ok false := by
  induction used with
  | nil => simp [isDuplicate]
  | cons u rest ih =>
      have hu0 : u ≠ ∅ := hu u (by simp)
      simp only [isDuplicate]
      rw [overlapFrac_ok ∅ u (Or.inr hu0)]
      have hr : ¬ ((7 : ℚ)/10 < overlapRatioSpec ∅ u) := by
        rw [overlapRatioSpec_empty_left]; norm_num
      simp only [hr, if_false]
      exact ih (fun v hv => hu v (List.mem_cons_of_mem _ hv))

lemma isDuplicate_empty_of_mem (used : List (Finset String)) (hu : ∅ ∈ used) :
    isDuplicate ∅ used = .error .zeroDivisionError := by
  induction used with
  | nil => cases hu
  | cons u rest ih =>
      by_cases h0 : u = ∅
      · subst h0
        simp only [isDuplicate, overlapFrac_empty_empty]
      · have hrest : ∅ ∈ rest := by
          rcases List.mem_cons.mp hu with h | h
          · exact absurd h.symm h0
          · exact h
        simp only [isDuplicate]
        rw [overlapFrac_ok ∅ u (Or.inr h0)]
        have hr : ¬ ((7 : ℚ)/10 < overlapRatioSpec ∅ u) := by
          rw [overlapRatioSpec_empty_left]; norm_num
        simp only [hr, if_false]
        exact ih hrest

lemma isDuplicate_isOk (kws : Finset String) (h : kws ≠ ∅)
    (used : List (Finset String)) : (isDuplicate kws used).isOk := by
  rw [isDuplicate_of_ne_empty kws h used]; rfl

lemma numEmptyKw_cons (i : TopicIdea) (l : List TopicIdea) :
    numEmptyKw (i :: l) = numEmptyKw l + if i.keywords.isEmpty then 1 else 0 := by
  simp [numEmptyKw, List.countP_cons]

lemma dedupGo_refines (l : List TopicIdea) :
    ∀ used, (∀ i ∈ l, i.keywords ≠ []) →
      dedupGo l used = .ok (dedupSpecGo l used) := by
  induction l with
  | nil => intro used _; simp [dedupGo, dedupSpecGo]
  | cons i rest ih =>
      intro used hl
      have hk : kwSet i.keywords ≠ ∅ := by
        rw [Ne, kwSet_eq_empty_iff]; exact hl i (by simp)
      have hrest : ∀ j ∈ rest, j.keywords ≠ [] :=
        fun j hj => hl j (List.mem_cons_of_mem _ hj)
      simp only [dedupGo, dedupSpecGo]
      rw [isDuplicate_of_ne_empty _ hk used]
      cases hall : used.all (fun u => decide (overlapRatioSpec (kwSet i.keywords) u ≤ 7/10)) with
      | false => simp [ih used hrest]
      | true => simp [ih (used ++ [kwSet i.keywords]) hrest]

lemma dedupGo_error_of_used_empty (l : List TopicIdea) :
    ∀ used, ∅ ∈ used → 1 ≤ numEmptyKw l →
      dedupGo l used = .error .zeroDivisionError := by
  induction l with
  | nil => intro used _ hc; simp [numEmptyKw] at hc
  | cons i rest ih =>
      intro used hu hc
      by_cases hi : i.keywords.isEmpty
      · have hk : kwSet i.keywords = ∅ := by
          rw [kwSet_eq_empty_iff]; exact List.isEmpty_iff.mp hi
        simp only [dedupGo, hk, isDuplicate_empty_of_mem used hu]
      · have hk : kwSet i.keywords ≠ ∅ := by
          rw [Ne, kwSet_eq_empty_iff]
          intro h; exact hi (by simp [h])
        have hc' : 1 ≤ numEmptyKw rest := by
          rw [numEmptyKw_cons, if_neg hi] at hc; omega
        simp only [dedupGo]
        rw [isDuplicate_of_ne_empty _ hk used]
        cases hall : used.all
            (fun u => decide (overlapRatioSpec (kwSet i.keywords) u ≤ 7/10)) with
        | false => simpa only [Bool.not_false] using ih used hu hc'
        | true =>
            have hm : (∅ : Finset String) ∈ used ++ [kwSet i.keywords] :=
              List.mem_append_left _ hu
            simp only [Bool.not_true, ih (used ++ [kwSet i.keywords]) hm hc']

lemma dedupGo_error_of_two (l : List TopicIdea) :
    ∀ used, (∀ u ∈ used, u ≠ ∅) → 2 ≤ numEmptyKw l →
      dedupGo l used = .error .zeroDivisionError := by
  induction l with
  | nil => intro used _ hc; simp [numEmptyKw] at hc
  | cons i rest ih =>
      intro used hu hc
      by_cases hi : i.keywords.isEmpty
      · have hk : kwSet i.keywords = ∅ := by
          rw [kwSet_eq_empty_iff]; exact List.isEmpty_iff.mp hi
        have hc' : 1 ≤ numEmptyKw rest := by
          rw [numEmptyKw_cons, if_pos hi] at hc; omega
        simp only [dedupGo, hk, isDuplicate_empty_of_all_ne used hu]
        have hm : (∅ : Finset String) ∈ used ++ [(∅ : Finset String)] :=
          List.mem_append_right _ (by simp)
        simp only [dedupGo_error_of_used_empty rest (used ++ [∅]) hm hc']
      · have hk : kwSet i.keywords ≠ ∅ := by
          rw [Ne, kwSet_eq_empty_iff]
          intro h; exact hi (by simp [h])
        have hc' : 2 ≤ numEmptyKw rest := by
          rw [numEmptyKw_cons, if_neg hi] at hc; omega
        simp only [dedupGo]
        rw [isDuplicate_of_ne_empty _ hk used]
        cases hall : used.all
            (fun u => decide (overlapRatioSpec (kwSet i.keywords) u ≤ 7/10)) with
        | false => simpa only [Bool.not_false] using ih used hu hc'
        | true =>
            have hu' : ∀ u ∈ used ++ [kwSet i.keywords], u ≠ ∅ := by
              intro u hmem
              rcases List.mem_append.mp hmem with h | h
              · exact hu u h
              · simp only [List.mem_singleton] at h; subst h; exact hk
            simp only [Bool.not_true, ih (used ++ [kwSet i.keywords]) hu' hc']

lemma dedupGo_isOk_of_none (l : List TopicIdea) :
    ∀ used, numEmptyKw l = 0 → (dedupGo l used).isOk := by
  induction l with
  | nil => intro used _; simp [dedupGo, Except.isOk, Except.toBool]
  | cons i rest ih =>
      intro used hc
      have hi : ¬ i.keywords.isEmpty := by
        intro h; rw [numEmptyKw_cons, if_pos h] at hc; omega
      have hk : kwSet i.keywords ≠ ∅ := by
        rw [Ne, kwSet_eq_empty_iff]
        intro h; exact hi (by simp [h])
      have hc' : numEmptyKw rest = 0 := by
        rw [numEmptyKw_cons, if_neg hi] at hc; omega
      simp only [dedupGo]
      rw [isDuplicate_of_ne_empty _ hk used]
      cases hall : used.all
          (fun u => decide (overlapRatioSpec (kwSet i.keywords) u ≤ 7/10)) with
      | false => simpa only [Bool.not_false] using ih used hc'
      | true =>
          have := ih (used ++ [kwSet i.keywords]) hc'
          cases hres : dedupGo rest (used ++ [kwSet i.keywords]) with
          | error e => rw [hres] at this; simp [Except.isOk, Except.toBool] at this
          | ok out => simp [Bool.not_true, hres, Except.isOk, Except.toBool]

lemma dedupGo_isOk_of_le_one (l : List TopicIdea) :
    ∀ used, (∀ u ∈ used, u ≠ ∅) → numEmptyKw l ≤ 1 → (dedupGo l used).isOk := by
  induction l with
  | nil => intro used _ _; simp [dedupGo, Except.isOk, Except.toBool]
  | cons i rest ih =>
      intro used hu hc
      by_cases hi : i.keywords.isEmpty
      · have hk : kwSet i.keywords = ∅ := by
          rw [kwSet_eq_empty_iff]; exact List.isEmpty_iff.mp hi
        have hc' : numEmptyKw rest = 0 := by
          rw [numEmptyKw_cons, if_pos hi] at hc; omega
        simp only [dedupGo, hk, isDuplicate_empty_of_all_ne used hu]
        have := dedupGo_isOk_of_none rest (used ++ [∅]) hc'
        cases hres : dedupGo rest (used ++ [(∅ : Finset String)]) with
        | error e => rw [hres] at this; simp [Except.isOk, Except.toBool] at this
        | ok out => simp [hres, Except.isOk, Except.toBool]
      · have hk : kwSet i.keywords ≠ ∅ := by
          rw [Ne, kwSet_eq_empty_iff]
          intro h; exact hi (by simp [h])
        have hc' : numEmptyKw rest ≤ 1 := by
          rw [numEmptyKw_cons, if_neg hi] at hc; omega
        simp only [dedupGo]
        rw [isDuplicate_of_ne_empty _ hk used]
        cases hall : used.all
            (fun u => decide (overlapRatioSpec (kwSet i.keywords) u ≤ 7/10)) with
        | false => simpa only [Bool.not_false] using ih used hu hc'
        | true =>
            have hu' : ∀ u ∈ used ++ [kwSet i.keywords], u ≠ ∅ := by
              intro u hmem
              rcases List.mem_append.mp hmem with h | h
              · exact hu u h
              · simp only [List.mem_singleton] at h; subst h; exact hk
            have := ih (used ++ [kwSet i.keywords]) hu' hc'
            cases hres : dedupGo rest (used ++ [kwSet i.keywords]) with
            | error e => rw [hres] at this; simp [Except.isOk, Except.toBool] at this
            | ok out => simp [hres, Except.isOk, Except.toBool]

lemma dedupGo_subset (l : List TopicIdea) :
    ∀ used out, dedupGo l used = .ok out → ∀ x ∈ out, x ∈ l := by
  induction l with
  | nil =>
      intro used out h x hx
      simp only [dedupGo, Except.ok.injEq] at h
      subst h; cases hx
  | cons i rest ih =>
      intro used out h x hx
      simp only [dedupGo] at h
      cases hdup : isDuplicate (kwSet i.keywords) used with
      | error e => rw [hdup] at h; cases h
      | ok b =>
          rw [hdup] at h
          cases b with
          | true => exact List.mem_cons_of_mem _ (ih used out h x hx)
          | false =>
              cases hres : dedupGo rest (used ++ [kwSet i.keywords]) with
              | error e => rw [hres] at h; cases h
              | ok tail =>
                  rw [hres] at h
                  simp only [Except.ok.injEq] at h
                  subst h
                  rcases List.mem_cons.mp hx with h | h
                  · subst h; exact List.mem_cons_self _ _
                  · exact List.mem_cons_of_mem _ (ih _ tail hres x h)

/-! ### Helper lemmas: sub-score bounds and score assignment -/

lemma score_recency_bounds (now : ℚ) (i : TopicIdea) :
    0 ≤ score_recency now i ∧ score_recency now i ≤ 1 := by
  unfold score_recency
  dsimp only
  split_ifs <;> norm_num

lemma score_cross_source_bounds (i : TopicIdea) (allIdeas : List TopicIdea) :
    0 ≤ score_cross_source i allIdeas ∧ score_cross_source i allIdeas ≤ 1 := by
  unfold score_cross_source
  dsimp only
  split_ifs <;> norm_num

lemma noveltyGo_bounds (kws : Finset String) (l : List UsageRecord) :
    0 ≤ noveltyGo kws l ∧ noveltyGo kws l ≤ 1 := by
  induction l with
  | nil => simp [noveltyGo]
  | cons r rest ih =>
      simp only [noveltyGo]
      split_ifs with h1 h2
      · norm_num
      · norm_num
      · exact ih

lemma score_novelty_bounds (now : ℚ) (i : TopicIdea) (hist : List UsageRecord) :
    0 ≤ score_novelty now i hist ∧ score_novelty now i hist ≤ 1 :=
  noveltyGo_bounds _ _

lemma perfKeyLoop_eval : perfKeyLoop recordDictKeys = .error .typeError := rfl

lemma score_performance_potential_ok (k : Finset String) (h : List UsageRecord)
    (q : ℚ) (hok : score_performance_potential k h = .ok q) : q = 1/2 := by
  unfold score_performance_potential at hok
  by_cases h1 : h.isEmpty
  · rw [if_pos h1] at hok; injection hok with h3; exact h3.symm
  · rw [if_neg h1] at hok
    by_cases h2 : h.length < 50
    · rw [if_pos h2] at hok; cases hok
    · rw [if_neg h2, perfKeyLoop_eval] at hok; cases hok

lemma avg_bounds (l : List ℚ) (h : ∀ x ∈ l, 0 ≤ x ∧ x ≤ 1) (hne : l ≠ []) :
    0 ≤ l.sum / (l.length : ℚ) ∧ l.sum / (l.length : ℚ) ≤ 1 := by
  have hlen : 0 < (l.length : ℚ) := by
    have : 0 < l.length := List.length_pos.mpr hne
    exact_mod_cast this
  constructor
  · exact div_nonneg (List.sum_nonneg (fun x hx => (h x hx).1)) hlen.le
  · rw [div_le_one hlen]
    have := List.sum_le_card_nsmul l 1 (fun x hx => (h x hx).2)
    simpa using this

lemma score_keyword_frequency_bounds (i : TopicIdea) (allIdeas : List TopicIdea) :
    0 ≤ score_keyword_frequency i allIdeas ∧ score_keyword_frequency i allIdeas ≤ 1 := by
  simp only [score_keyword_frequency]
  split_ifs with h1 h2
  · norm_num
  · norm_num
  · apply avg_bounds
    · intro x hx
      simp only [List.mem_map] at hx
      obtain ⟨k, _, rfl⟩ := hx
      split_ifs <;> norm_num
    · intro hnil
      rw [hnil] at h2
      simp at h2

lemma composite_ok_bounds (now : ℚ) (st : TopicScorerState) (i : TopicIdea)
    (allIdeas : List TopicIdea) (ch : String) (s : ℚ) (hw : wnonneg st.weights)
    (hok : calculate_composite_score now st i allIdeas ch = .ok s) :
    0 ≤ s ∧ s ≤ 1 := by
  simp only [calculate_composite_score] at hok
  cases hperf : score_performance_potential (kwSet i.keywords)
      (histLookup st.used_topics ch) with
  | error e => rw [hperf] at hok; cases hok
  | ok q =>
      rw [hperf] at hok
      simp only [Except.ok.injEq] at hok
      subst hok
      have hq : q = 1/2 := score_performance_potential_ok _ _ _ hperf
      obtain ⟨hw1, hw2, hw3, hw4, hw5⟩ := hw
      obtain ⟨hr0, hr1⟩ := score_recency_bounds now i
      obtain ⟨hc0, hc1⟩ := score_cross_source_bounds i allIdeas
      obtain ⟨hn0, hn1⟩ := score_novelty_bounds now i (histLookup st.used_topics ch)
      obtain ⟨hf0, hf1⟩ := score_keyword_frequency_bounds i allIdeas
      constructor
      · refine le_min (by norm_num) ?_
        have hq0 : 0 ≤ q := by rw [hq]; norm_num
        positivity
      · exact min_le_left _ _

lemma composite_ok_of_no_hist (now : ℚ) (st : TopicScorerState) (i : TopicIdea)
    (allIdeas : List TopicIdea) (ch : String)
    (hh : histLookup st.used_topics ch = []) :
    ∃ s, calculate_composite_score now st i allIdeas ch = .ok s := by
  unfold calculate_composite_score
  rw [hh]
  exact ⟨_, rfl⟩

lemma assignScores_ok_of_no_hist (now : ℚ) (st : TopicScorerState)
    (allIdeas : List TopicIdea) (ch : String)
    (hh : histLookup st.used_topics ch = []) (l : List TopicIdea) :
    ∃ out, assignScores now st allIdeas ch l = .ok out ∧
      out.map (fun i => i.keywords) = l.map (fun i => i.keywords) := by
  induction l with
  | nil => exact ⟨[], rfl, rfl⟩
  | cons i rest ih =>
      obtain ⟨out, hout, hmap⟩ := ih
      obtain ⟨s, hs⟩ := composite_ok_of_no_hist now st i allIdeas ch hh
      refine ⟨{ i with score := s } :: out, ?_, ?_⟩
      · simp only [assignScores, hs, hout]
      · simp [hmap]

lemma assignScores_bounds (now : ℚ) (st : TopicScorerState)
    (allIdeas : List TopicIdea) (ch : String) (hw : wnonneg st.weights) :
    ∀ l out, assignScores now st allIdeas ch l = .ok out →
      ∀ i ∈ out, 0 ≤ i.score ∧ i.score ≤ 1 := by
  intro l
  induction l with
  | nil =>
      intro out h i hi
      simp only [assignScores, Except.ok.injEq] at h
      subst h; cases hi
  | cons j rest ih =>
      intro out h i hi
      simp only [assignScores] at h
      cases hcomp : calculate_composite_score now st j allIdeas ch with
      | error e => rw [hcomp] at h; cases h
      | ok s =>
          rw [hcomp] at h
          cases hrest : assignScores now st allIdeas ch rest with
          | error e => rw [hrest] at h; cases h
          | ok l2 =>
              rw [hrest] at h
              simp only [Except.ok.injEq] at h
              subst h
              rcases List.mem_cons.mp hi with h | h
              · subst h
                simpa using composite_ok_bounds now st j allIdeas ch s hw hcomp
              · exact ih l2 hrest i h

/-! ### Helper lemmas: weights -/

lemma adjustWeights_pos (m : Metrics) (w : Weights) (hw : wpos w) :
    wpos (adjustWeights m w) := by
  obtain ⟨h1, h2, h3, h4, h5⟩ := hw
  unfold wpos
  simp only [adjustWeights]
  split_ifs <;>
    refine ⟨?_, ?_, ?_, ?_, ?_⟩ <;>
    dsimp only <;>
    first
      | assumption
      | exact mul_pos (by assumption) (by norm_num)

lemma wsum_pos_of_wpos (w : Weights) (hw : wpos w) : 0 < wsum w := by
  obtain ⟨h1, h2, h3, h4, h5⟩ := hw
  unfold wsum
  linarith

lemma update_topic_weights_ok (m : Metrics) (w : Weights) (hw : wpos w) :
    (update_topic_weights m w).2 = none ∧ wsum (update_topic_weights m w).1 = 1 := by
  have hpos := wsum_pos_of_wpos _ (adjustWeights_pos m w hw)
  have hne : wsum (adjustWeights m w) ≠ 0 := ne_of_gt hpos
  simp only [update_topic_weights]
  rw [if_neg hne]
  refine ⟨rfl, ?_⟩
  show wsum _ = 1
  unfold wsum
  dsimp only
  rw [div_add_div_same, div_add_div_same, div_add_div_same, div_add_div_same]
  exact div_self hne

/-! ### Helper lemmas: usage history -/

lemma histLookup_setAssoc_self (u : List (String × List UsageRecord)) (ch : String)
    (v : List UsageRecord) : histLookup (setAssoc u ch v) ch = v := by
  induction u with
  | nil => simp [setAssoc, histLookup]
  | cons p rest ih =>
      obtain ⟨c, h⟩ := p
      by_cases hc : c = ch
      · simp [setAssoc, histLookup, hc]
      · simp [setAssoc, histLookup, hc, ih]

lemma lastN_eq (n : ℕ) {α : Type} (l : List α) :
    lastN n l = (l.reverse.take n).reverse := by
  rw [lastN, List.take_reverse, List.reverse_reverse]

lemma take_append_take (n : ℕ) {α : Type} (a b : List α) :
    List.take n (a ++ List.take n b) = List.take n (a ++ b) := by
  rw [List.take_append_eq_append_take, List.take_append_eq_append_take, List.take_take]
  rw [min_eq_left (Nat.sub_le n _)]

lemma lastN_append (n : ℕ) {α : Type} (xs ys : List α) :
    lastN n (lastN n xs ++ ys) = lastN n (xs ++ ys) := by
  simp only [lastN_eq, List.reverse_append, List.reverse_reverse]
  rw [take_append_take]

lemma lastN_length_le (n : ℕ) {α : Type} (l : List α) : (lastN n l).length ≤ n := by
  simp only [lastN, List.length_drop]
  omega

lemma mark_topic_used_hist (st : TopicScorerState) (tid : String)
    (kws : List String) (ch : String) (perf : Option PerfData) (t : ℚ) :
    histLookup (mark_topic_used st tid kws ch perf t).used_topics ch =
      lastN 100 (histLookup st.used_topics ch ++
        [callRecord (tid, kws, perf, t)]) := by
  simp only [mark_topic_used, callRecord]
  exact histLookup_setAssoc_self _ _ _

lemma runMarks_hist (ch : String) :
    ∀ (calls : List (String × List String × Option PerfData × ℚ))
      (st : TopicScorerState) (acc : List UsageRecord),
      histLookup st.used_topics ch = lastN 100 acc →
      histLookup (runMarks st ch calls).used_topics ch =
        lastN 100 (acc ++ calls.map callRecord) := by
  intro calls
  induction calls with
  | nil => intro st acc h; simpa using h
  | cons c rest ih =>
      intro st acc h
      obtain ⟨tid, kws, perf, t⟩ := c
      simp only [runMarks]
      have h1 : histLookup (mark_topic_used st tid kws ch perf t).used_topics ch =
          lastN 100 (acc ++ [callRecord (tid, kws, perf, t)]) := by
        rw [mark_topic_used_hist, h, lastN_append]
      have := ih (mark_topic_used st tid kws ch perf t)
        (acc ++ [callRecord (tid, kws, perf, t)]) h1
      rw [this]
      simp [List.append_assoc]

/-! ### Helper lemmas: batch-level score assignment facts -/

lemma spp_nil (k : Finset String) :
    score_performance_potential k [] = .ok (1/2) := rfl

lemma numEmptyKw_eq_of_map_keywords {l₁ l₂ : List TopicIdea}
    (h : l₁.map (fun i => i.keywords) = l₂.map (fun i => i.keywords)) :
    numEmptyKw l₁ = numEmptyKw l₂ := by
  have e1 : numEmptyKw l₁ =
      (l₁.map (fun i => i.keywords)).countP (fun k => k.isEmpty) := by
    rw [List.countP_map]; rfl
  have e2 : numEmptyKw l₂ =
      (l₂.map (fun i => i.keywords)).countP (fun k => k.isEmpty) := by
    rw [List.countP_map]; rfl
  rw [e1, h]; exact e2.symm

lemma numEmptyKw_mergeSort (le : TopicIdea → TopicIdea → Bool) (l : List TopicIdea) :
    numEmptyKw (l.mergeSort le) = numEmptyKw l :=
  List.Perm.countP_eq _ (List.mergeSort_perm l le)

lemma composite_recOnly_eval :
    calculate_composite_score 0 recOnlyScorer ideaAI1 [ideaAI1] "ch" = .ok 1 := by
  simp only [calculate_composite_score]
  have hh : histLookup recOnlyScorer.used_topics "ch" = [] := rfl
  rw [hh]
  simp only [spp_nil]
  norm_num [score_recency, recOnlyScorer, wRecOnly, ideaAI1]

lemma score_and_rank_recOnly_eval :
    score_and_rank recOnlyScorer 0 [ideaAI1] "ch" = .ok [{ ideaAI1 with score := 1 }] := by
  unfold score_and_rank
  rw [if_neg (by decide)]
  have ha : assignScores 0 recOnlyScorer [ideaAI1] "ch" [ideaAI1] =
      .ok [{ ideaAI1 with score := 1 }] := by
    simp only [assignScores, composite_recOnly_eval]
  rw [ha]
  simp only [List.mergeSort_singleton]
  simp only [deduplicate_topics, dedupGo, isDuplicate]

/-! ## Claim theorems -/

/-- Claim C1 (code bug): `_score_performance_potential` does NOT average the
last-50 matching history entries as the spec says.  The source indexes
`channel_history[-50]` instead of slicing `[-50:]`, so any channel with a
non-empty history makes the sub-score raise: `IndexError` when the history is
shorter than 50, and `TypeError` (string indexed with a string, reached while
iterating the single record dict's keys) when it has at least 50 entries.
Concretely a 1-record history raises IndexError and a 50-record history raises
TypeError; in general every non-empty history produces some exception. -/
theorem C1_performance_subscore_crashes :
    score_performance_potential (kwSet ["a", "b"]) [sampleRecord] = .error .indexError ∧
    score_performance_potential (kwSet ["a", "b"]) (List.replicate 50 sampleRecord) =
      .error .typeError ∧
    ∀ (kws : Finset String) (hist : List UsageRecord), hist ≠ [] →
      ∃ e, score_performance_potential kws hist = .error e := by
  refine ⟨rfl, rfl, ?_⟩
  intro kws hist hne
  unfold score_performance_potential
  rw [if_neg (by simpa [List.isEmpty_iff] using hne)]
  by_cases h2 : hist.length < 50
  · rw [if_pos h2]; exact ⟨_, rfl⟩
  · rw [if_neg h2, perfKeyLoop_eval]; exact ⟨_, rfl⟩

/-- Witness for C1: a concrete 3-record history indeed raises. -/
theorem C1_performance_subscore_crashes_witness :
    ∃ e, score_performance_potential (kwSet ["x"]) (List.replicate 3 sampleRecord) =
      .error e :=
  C1_performance_subscore_crashes.2.2 _ _ (by simp)

/-- Claim C9: the deduplication step divides by `max(|A|, |B|)`; with two
candidates whose keyword sets are both empty the divisor is 0 and it raises
`ZeroDivisionError`; with at most one empty keyword set every divisor is
positive and deduplication is total. -/
theorem C9_dedup_zero_division :
    (∀ ideas : List TopicIdea, 2 ≤ numEmptyKw ideas →
        deduplicate_topics ideas = .error .zeroDivisionError) ∧
    (∀ ideas : List TopicIdea, numEmptyKw ideas ≤ 1 →
        (deduplicate_topics ideas).isOk) := by
  constructor
  · intro ideas h
    exact dedupGo_error_of_two ideas [] (by intro u hu; cases hu) h
  · intro ideas h
    exact dedupGo_isOk_of_le_one ideas [] (by intro u hu; cases hu) h

/-- Witness for C9: both halves at concrete batches. -/
theorem C9_dedup_zero_division_witness :
    deduplicate_topics [ideaEmpty1, ideaEmpty2] = .error .zeroDivisionError ∧
    (deduplicate_topics [ideaAI1]).isOk :=
  ⟨C9_dedup_zero_division.1 _ (by decide), C9_dedup_zero_division.2 _ (by decide)⟩

/-- Claim C10: `analyze_performance_and_learn` swallows every internal
exception (it is a total state transformer in this embedding), but the update
is not atomic: with an empty hook, `hook.split()[0]` raises `IndexError` inside
the hook-analysis step, so the keyword-performance statistics (updated first)
remain applied while the hook statistics, content insights, weight adjustment
and both persistence writes are skipped — the resulting state is exactly the
input state with only `keyword_performance` rewritten. -/
theorem C10_partial_update_on_empty_hook :
    ∀ (st : EngineState) (kws : List String) (script ch : String) (m : Metrics)
      (now : ℚ),
      analyze_hook_performance "" m (update_keyword_performance kws m st.learning) =
        .error .indexError ∧
      analyze_performance_and_learn st kws "" script ch (some m) now =
        { st with learning := update_keyword_performance kws m st.learning } ∧
      (update_keyword_performance kws m st.learning).successful_hooks =
        st.learning.successful_hooks ∧
      (update_keyword_performance kws m st.learning).content_insights =
        st.learning.content_insights ∧
      (update_keyword_performance kws m st.learning).last_updated =
        st.learning.last_updated :=
  fun _ _ _ _ _ _ => ⟨rfl, rfl, rfl, rfl, rfl⟩

/-- Counterexample for C2: `score_and_rank` DOES raise for a data-quality
problem — a fresh scorer given two candidates with empty keyword sets
propagates `ZeroDivisionError` out of the deduplication step. -/
theorem C2_score_and_rank_raises :
    score_and_rank freshScorer 0 [ideaEmpty1, ideaEmpty2] "ch" =
      .error .zeroDivisionError := by
  have hh : histLookup freshScorer.used_topics "ch" = [] := rfl
  obtain ⟨out, hout, hmap⟩ :=
    assignScores_ok_of_no_hist 0 freshScorer [ideaEmpty1, ideaEmpty2] "ch" hh
      [ideaEmpty1, ideaEmpty2]
  unfold score_and_rank
  rw [if_neg (by decide), hout]
  apply dedupGo_error_of_two _ [] (by intro u hu; cases hu)
  rw [numEmptyKw_mergeSort, numEmptyKw_eq_of_map_keywords hmap]
  decide

/-- Claim C2, amended: `mark_topic_used` and `analyze_performance_and_learn`
never raise (both are total state transformers in this embedding: the former's
`save_history` catches its own errors, the latter wraps its whole body in
`try/except`), but `score_and_rank` can raise (see the counterexample); it is
exception-free whenever the channel has no usage history (so the broken
performance sub-score is not reached) and at most one candidate has an empty
keyword set (so the deduplication divisor is never zero). -/
theorem C2_graceful_degradation_domain :
    ∀ (st : TopicScorerState) (now : ℚ) (ideas : List TopicIdea) (ch : String),
      histLookup st.used_topics ch = [] → numEmptyKw ideas ≤ 1 →
      (score_and_rank st now ideas ch).isOk := by
  intro st now ideas ch hh hc
  by_cases hnil : ideas.isEmpty
  · unfold score_and_rank
    rw [if_pos hnil]
    rfl
  · unfold score_and_rank
    rw [if_neg hnil]
    obtain ⟨out, hout, hmap⟩ := assignScores_ok_of_no_hist now st ideas ch hh ideas
    rw [hout]
    apply dedupGo_isOk_of_le_one _ [] (by intro u hu; cases hu)
    rw [numEmptyKw_mergeSort, numEmptyKw_eq_of_map_keywords hmap]
    exact hc

/-- Witness for C2: a fresh scorer ranking one nonempty-keyword candidate
succeeds. -/
theorem C2_graceful_degradation_domain_witness :
    (score_and_rank freshScorer 0 [ideaAI1] "ch").isOk :=
  C2_graceful_degradation_domain freshScorer 0 [ideaAI1] "ch" rfl (by decide)

/-- Claim C5: deduplication keeps a candidate exactly when its overlap ratio
`|A ∩ B| / max(|A|, |B|)` with every already-kept candidate is ≤ 0.7 (the
operational loop refines the spec-worded rule whenever all keyword sets are
nonempty), and the spec's two scenarios hold: {ai,robot,future} vs
{ai,robot,tech} (ratio 2/3) both survive, while of {ai,robot,future} vs
{ai,robot,future,x} (ratio 3/4) only the higher-scored first one survives. -/
theorem C5_dedup_overlap_rule :
    (∀ ideas : List TopicIdea, (∀ i ∈ ideas, i.keywords ≠ []) →
        deduplicate_topics ideas = .ok (dedupSpec ideas)) ∧
    deduplicate_topics [ideaAI1, ideaAI2] = .ok [ideaAI1, ideaAI2] ∧
    deduplicate_topics [ideaAI1, ideaAI3] = .ok [ideaAI1] := by
  refine ⟨?_, ?_, ?_⟩
  · intro ideas h
    exact dedupGo_refines ideas [] h
  · have hr : overlapRatioSpec (kwSet ideaAI2.keywords) (kwSet ideaAI1.keywords) =
        2/3 := by
      rw [overlapRatioSpec,
        show ((kwSet ideaAI2.keywords) ∩ (kwSet ideaAI1.keywords)).card = 2 from rfl,
        show (kwSet ideaAI2.keywords).card = 3 from rfl,
        show (kwSet ideaAI1.keywords).card = 3 from rfl]
      norm_num
    have hd1 : isDuplicate (kwSet ideaAI1.keywords) [] = .ok false := rfl
    have hd2 : isDuplicate (kwSet ideaAI2.keywords) [kwSet ideaAI1.keywords] =
        .ok false := by
      simp only [isDuplicate]
      rw [overlapFrac_ok _ _ (Or.inl (by decide)), hr]
      norm_num [isDuplicate]
    show dedupGo [ideaAI1, ideaAI2] [] = .ok [ideaAI1, ideaAI2]
    simp only [dedupGo, hd1, List.nil_append, hd2]
  · have hr : overlapRatioSpec (kwSet ideaAI3.keywords) (kwSet ideaAI1.keywords) =
        3/4 := by
      rw [overlapRatioSpec,
        show ((kwSet ideaAI3.keywords) ∩ (kwSet ideaAI1.keywords)).card = 3 from rfl,
        show (kwSet ideaAI3.keywords).card = 4 from rfl,
        show (kwSet ideaAI1.keywords).card = 3 from rfl]
      norm_num
    have hd1 : isDuplicate (kwSet ideaAI1.keywords) [] = .ok false := rfl
    have hd3 : isDuplicate (kwSet ideaAI3.keywords) [kwSet ideaAI1.keywords] =
        .ok true := by
      simp only [isDuplicate]
      rw [overlapFrac_ok _ _ (Or.inl (by decide)), hr]
      norm_num
    show dedupGo [ideaAI1, ideaAI3] [] = .ok [ideaAI1]
    simp only [dedupGo, hd1, List.nil_append, hd3]

/-- Witness for C5: the refinement applied to a concrete nonempty-keyword
batch. -/
theorem C5_dedup_overlap_rule_witness :
    deduplicate_topics [ideaAI1, ideaAI2] = .ok (dedupSpec [ideaAI1, ideaAI2]) :=
  C5_dedup_overlap_rule.1 [ideaAI1, ideaAI2] (by decide)

/-- Counterexample for C3: one call of `analyze_performance_and_learn` with
available metrics but an empty hook aborts before the weight-adjustment step,
so the default weights (which sum to 1.1) are left untouched — the sum after
the call is 11/10, more than 1e-9 away from 1.0. -/
theorem C3_abort_skips_normalization :
    wsum (analyze_performance_and_learn freshEngine ["k"] "" "script" "ch"
        (some sampleMetrics) 0).weights = 11/10 ∧
    (1/1000000000 : ℚ) <
      |wsum (analyze_performance_and_learn freshEngine ["k"] "" "script" "ch"
        (some sampleMetrics) 0).weights - 1| := by
  have h : (analyze_performance_and_learn freshEngine ["k"] "" "script" "ch"
      (some sampleMetrics) 0).weights = default_weights := rfl
  rw [h]
  have hs : wsum default_weights = 11/10 := by norm_num [wsum, default_weights]
  rw [hs]
  refine ⟨rfl, ?_⟩
  rw [show (11/10 : ℚ) - 1 = 1/10 from by norm_num, abs_of_nonneg (by norm_num)]
  norm_num

/-- Claim C3, amended: after every `analyze_performance_and_learn` call with
available metrics in which no internal step raises (in particular the hook has
at least one word) and the current weights are positive, the five weights sum
to exactly 1: the adjustment applies its conditional multiplications and then
divides every weight by the new total, once, at the end. -/
theorem C3_weights_sum_one_after_full_update :
    ∀ (st : EngineState) (kws : List String) (hook script ch : String)
      (m : Metrics) (now : ℚ),
      pySplit hook ≠ [] → wpos st.weights →
      wsum (analyze_performance_and_learn st kws hook script ch (some m) now).weights
        = 1 := by
  intro st kws hook script ch m now hhook hw
  obtain ⟨w0, ws, hsplit⟩ : ∃ w0 ws, pySplit hook = w0 :: ws := by
    cases h : pySplit hook with
    | nil => exact absurd h hhook
    | cons a b => exact ⟨a, b, rfl⟩
  have hhookok : ∀ ld, ∃ ld', analyze_hook_performance hook m ld = .ok ld' := by
    intro ld
    simp only [analyze_hook_performance, hsplit]
    exact ⟨_, rfl⟩
  obtain ⟨ld2, hld2⟩ := hhookok (update_keyword_performance kws m st.learning)
  obtain ⟨hsnd, hwsum⟩ := update_topic_weights_ok m st.weights hw
  simp only [analyze_performance_and_learn, hld2]
  rcases hp : update_topic_weights m st.weights with ⟨w1, e⟩
  rw [hp] at hsnd hwsum
  simp only at hsnd
  subst hsnd
  simpa using hwsum

/-- Witness for C3: a full update from the fresh engine renormalizes. -/
theorem C3_weights_sum_one_after_full_update_witness :
    wsum (analyze_performance_and_learn freshEngine ["k"] "Watch this now" "script"
        "ch" (some sampleMetrics) 0).weights = 1 :=
  C3_weights_sum_one_after_full_update freshEngine ["k"] "Watch this now" "script"
    "ch" sampleMetrics 0 (by decide) (by norm_num [wpos, freshEngine, default_weights])

/-- Counterexample for C4: the documented default weights sum to 1.1, not 1.0
(beyond any floating tolerance), and `update_weights_from_performance` does not
renormalize — after a nudge from the defaults the sum is 2237/2000 ≠ 1. -/
theorem C4_defaults_not_normalized :
    wsum default_weights = 11/10 ∧
    (1/1000000000 : ℚ) < |wsum default_weights - 1| ∧
    wsum (update_weights_from_performance samplePerf default_weights) ≠ 1 := by
  have hs : wsum default_weights = 11/10 := by norm_num [wsum, default_weights]
  refine ⟨hs, ?_, ?_⟩
  · rw [hs, show (11/10 : ℚ) - 1 = 1/10 from by norm_num,
      abs_of_nonneg (by norm_num)]
    norm_num
  · norm_num [update_weights_from_performance, samplePerf, default_weights, wsum,
      min_def, max_def]

/-- Claim C4, amended: the weight map is NOT always normalized (the defaults
and TopicScorer's own update violate it, see the counterexample); the
operation that does normalize is the LearningEngine's weight update, after
which — from any positive weights — the five weights sum to exactly 1 and no
error is raised. -/
theorem C4_learning_update_normalizes :
    ∀ (m : Metrics) (w : Weights), wpos w →
      (update_topic_weights m w).2 = none ∧ wsum (update_topic_weights m w).1 = 1 :=
  fun m w hw => update_topic_weights_ok m w hw

/-- Witness for C4: the learning update from the defaults normalizes. -/
theorem C4_learning_update_normalizes_witness :
    (update_topic_weights sampleMetrics default_weights).2 = none ∧
    wsum (update_topic_weights sampleMetrics default_weights).1 = 1 :=
  C4_learning_update_normalizes sampleMetrics default_weights
    (by norm_num [wpos, default_weights])

/-- Counterexample for C6: the performance score is NOT in [0,1] for every
metrics dict — retention_rate 600 (with zero views and engagement) yields
6/5 > 1. -/
theorem C6_perf_score_exceeds_one :
    calculate_performance_score overRetentionMetrics = 6/5 ∧
    ¬ (calculate_performance_score overRetentionMetrics ≤ 1) := by
  have h : calculate_performance_score overRetentionMetrics = 6/5 := by
    norm_num [calculate_performance_score, overRetentionMetrics, min_def]
  exact ⟨h, by rw [h]; norm_num⟩

/-- Claim C6, amended: the performance score always equals
`0.5*min(1, views/10000) + 0.3*min(1, engagement_rate/5) +
0.2*(retention_rate/100)` (that is its definition); it lies in [0,1] whenever
views ≥ 0, engagement_rate ≥ 0 and retention_rate ∈ [0,100] (missing keys
default to 0 and qualify), and the spec's example
{views 12000, engagement 3.0, retention 80} yields exactly 0.84 = 21/25. -/
theorem C6_perf_score_bounds_and_example :
    (∀ m : Metrics, 0 ≤ m.views.getD 0 → 0 ≤ m.engagement_rate.getD 0 →
      0 ≤ m.retention_rate.getD 0 → m.retention_rate.getD 0 ≤ 100 →
      0 ≤ calculate_performance_score m ∧ calculate_performance_score m ≤ 1) ∧
    calculate_performance_score sampleMetrics = 21/25 := by
  constructor
  · intro m h1 h2 h3 h4
    simp only [calculate_performance_score]
    have hv1 : min 1 (m.views.getD 0 / 10000) ≤ 1 := min_le_left _ _
    have hv0 : 0 ≤ min 1 (m.views.getD 0 / 10000) :=
      le_min (by norm_num) (by positivity)
    have he1 : min 1 (m.engagement_rate.getD 0 / 5) ≤ 1 := min_le_left _ _
    have he0 : 0 ≤ min 1 (m.engagement_rate.getD 0 / 5) :=
      le_min (by norm_num) (by positivity)
    have hr0 : 0 ≤ m.retention_rate.getD 0 / 100 := by positivity
    have hr1 : m.retention_rate.getD 0 / 100 ≤ 1 := by
      rw [div_le_one (by norm_num)]; linarith
    constructor <;> nlinarith
  · norm_num [calculate_performance_score, sampleMetrics, min_def]

/-- Witness for C6: the bounds at a concrete in-range metrics dict. -/
theorem C6_perf_score_bounds_witness :
    0 ≤ calculate_performance_score sampleMetrics ∧
    calculate_performance_score sampleMetrics ≤ 1 :=
  C6_perf_score_bounds_and_example.1 sampleMetrics (by norm_num [sampleMetrics])
    (by norm_num [sampleMetrics]) (by norm_num [sampleMetrics])
    (by norm_num [sampleMetrics])

/-- Claim C7: the per-channel usage history kept by `mark_topic_used` never
exceeds 100 entries, and eviction is oldest-first regardless of performance
data: starting from an empty channel history, after any 150 calls exactly the
records of the last 100 calls remain, in insertion order (the first 50 are
dropped). -/
theorem C7_history_cap_fifo :
    (∀ (st : TopicScorerState) (tid : String) (kws : List String) (ch : String)
        (perf : Option PerfData) (t : ℚ),
      (histLookup (mark_topic_used st tid kws ch perf t).used_topics ch).length
        ≤ 100) ∧
    (∀ (st : TopicScorerState) (ch : String)
        (calls : List (String × List String × Option PerfData × ℚ)),
      histLookup st.used_topics ch = [] → calls.length = 150 →
      histLookup (runMarks st ch calls).used_topics ch =
        (calls.map callRecord).drop 50) := by
  constructor
  · intro st tid kws ch perf t
    rw [mark_topic_used_hist]
    exact lastN_length_le _ _
  · intro st ch calls h0 h150
    have h := runMarks_hist ch calls st [] (by rw [h0]; rfl)
    rw [h]
    simp only [List.nil_append, lastN]
    congr 1
    simp [h150]

/-- Witness for C7: 150 identical calls leave the last 100 records. -/
theorem C7_history_cap_fifo_witness :
    histLookup (runMarks freshScorer "ch" sampleCalls).used_topics "ch" =
      (sampleCalls.map callRecord).drop 50 :=
  C7_history_cap_fifo.2 freshScorer "ch" sampleCalls rfl (by simp [sampleCalls])

/-- Claim C8: every score assigned by `score_and_rank` is clamped to [0,1]:
for every batch, channel state and weight configuration with nonnegative
weights summing to 1, every candidate in the returned ranking has
`0 ≤ score ≤ 1`. -/
theorem C8_scores_bounded :
    ∀ (st : TopicScorerState) (now : ℚ) (ideas : List TopicIdea) (ch : String)
      (out : List TopicIdea),
      wnonneg st.weights → wsum st.weights = 1 →
      score_and_rank st now ideas ch = .ok out →
      ∀ i ∈ out, 0 ≤ i.score ∧ i.score ≤ 1 := by
  intro st now ideas ch out hw _ hok i hi
  unfold score_and_rank at hok
  by_cases hnil : ideas.isEmpty
  · rw [if_pos hnil] at hok
    injection hok with h
    subst h
    rw [List.isEmpty_iff] at hnil
    subst hnil
    cases hi
  · rw [if_neg hnil] at hok
    cases hassign : assignScores now st ideas ch ideas with
    | error e => rw [hassign] at hok; cases hok
    | ok scored =>
        rw [hassign] at hok
        have hmem : i ∈ scored.mergeSort (fun a b => decide (b.score ≤ a.score)) :=
          dedupGo_subset _ _ _ hok i hi
        have hmem2 : i ∈ scored := List.mem_mergeSort.mp hmem
        exact assignScores_bounds now st ideas ch hw ideas scored hassign i hmem2

/-- Witness for C8: a concrete run with the recency-only normalized weights
assigns score 1, which is within [0,1]. -/
theorem C8_scores_bounded_witness :
    0 ≤ ({ ideaAI1 with score := 1 } : TopicIdea).score ∧
    ({ ideaAI1 with score := 1 } : TopicIdea).score ≤ 1 :=
  C8_scores_bounded recOnlyScorer 0 [ideaAI1] "ch" [{ ideaAI1 with score := 1 }]
    (by norm_num [wnonneg, recOnlyScorer, wRecOnly])
    (by norm_num [wsum, recOnlyScorer, wRecOnly])
    score_and_rank_recOnly_eval
    _ (List.mem_cons_self _ _)

end VideoAutomation
